import Mathlib

/-!
Verification of the `ssid` self-sovereign identity library.

This file shallowly embeds the core data model and operations of the
repository (the `Bindle` ASCII-armored container, the identity certificate
chain, the seal parser and the ristretto key scheme) and proves the
specification claims about them.

Modelling conventions:
* Bytes are `Nat` values (< 256 where it matters); byte strings are
  `List Nat`.
* Rust `Display`/`FromStr` of the armored bindle work line-by-line
  (every piece is emitted with `writeln!` and the parser immediately
  splits with `str::lines`), so the armored text is modelled as a
  `List (List Char)` of lines; each rendered component (id string,
  mnemonic, headers) is a single newline-free line by construction.
* External crates (`base85`, `baid58`, `bpstd`, `ec25519`) are modelled
  by executable Lean functions (`encode85`/`decode85` for the RFC1924
  base85 codec used by the `base85` crate) or by function parameters
  (`baid58` string codec, outpoint parser), since their sources are not
  part of this repository.
* Fallible Rust functions return `Except`; a Rust panic (`assert_eq!`,
  `expect`) is modelled by the distinguished `PanicOr.panicked` outcome,
  kept apart from returned error values.
-/

set_option maxRecDepth 4000

namespace SSID

/-! ### Base85 (RFC 1924 alphabet, as used by the `base85` crate)

The crate encodes 4-byte groups big-endian into 5 base-85 digits
(most significant digit first); a trailing group of `n ∈ {1,2,3}` bytes is
zero-padded and emitted as its `n+1` most significant digits.  Decoding
reverses this, padding a trailing digit group with the largest digit (84)
and keeping the `n` leading bytes. -/

def b85Alphabet : List Char :=
  ("0123456789ABCDEFGHIJKLMNOPQRSTUVWXYZabcdefghijklmnopqrstuvwxyz" ++
   "!#$%&()*+-;<=>?@^_`\x7b|\x7d~").toList

def b85Char (d : Nat) : Char := b85Alphabet.getD d '0'

def findIdx85 (ch : Char) : List Char → Option Nat
  | [] => none
  | c :: cs => if c = ch then some 0 else (findIdx85 ch cs).map (· + 1)

def b85Digit? (ch : Char) : Option Nat := findIdx85 ch b85Alphabet

/-- The 32-bit value of a big-endian 4-byte group. -/
def be4 (a b c d : Nat) : Nat := a * 16777216 + b * 65536 + c * 256 + d

/-- The five base-85 digits of `N < 85^5`, most significant first. -/
def enc5 (N : Nat) : List Nat :=
  [N / 52200625 % 85, N / 614125 % 85, N / 7225 % 85, N / 85 % 85, N % 85]

/-- The value of a digit list, most significant digit first. -/
def b85Val (ds : List Nat) : Nat := ds.foldl (fun acc d => acc * 85 + d) 0

/-- The four big-endian bytes of `N < 2^32`. -/
def bytes4 (N : Nat) : List Nat :=
  [N / 16777216 % 256, N / 65536 % 256, N / 256 % 256, N % 256]

/-- Model of `base85::encode`. -/
def encode85 : List Nat → List Char
  | [] => []
  | [a] => ((enc5 (be4 a 0 0 0)).take 2).map b85Char
  | [a, b] => ((enc5 (be4 a b 0 0)).take 3).map b85Char
  | [a, b, c] => ((enc5 (be4 a b c 0)).take 4).map b85Char
  | a :: b :: c :: d :: rest => (enc5 (be4 a b c d)).map b85Char ++ encode85 rest

/-- Model of `base85::Error` (the payload is irrelevant to the claims). -/
inductive B85Error where
  | mk : B85Error
deriving DecidableEq

/-- Model of `base85::decode`. -/
def decode85 : List Char → Except B85Error (List Nat)
  | [] => .ok []
  | [_] => .error .mk
  | [c1, c2] =>
    match b85Digit? c1, b85Digit? c2 with
    | some d1, some d2 =>
      let N := b85Val [d1, d2, 84, 84, 84]
      if N < 4294967296 then .ok ((bytes4 N).take 1) else .error .mk
    | _, _ => .error .mk
  | [c1, c2, c3] =>
    match b85Digit? c1, b85Digit? c2, b85Digit? c3 with
    | some d1, some d2, some d3 =>
      let N := b85Val [d1, d2, d3, 84, 84]
      if N < 4294967296 then .ok ((bytes4 N).take 2) else .error .mk
    | _, _, _ => .error .mk
  | [c1, c2, c3, c4] =>
    match b85Digit? c1, b85Digit? c2, b85Digit? c3, b85Digit? c4 with
    | some d1, some d2, some d3, some d4 =>
      let N := b85Val [d1, d2, d3, d4, 84]
      if N < 4294967296 then .ok ((bytes4 N).take 3) else .error .mk
    | _, _, _, _ => .error .mk
  | c1 :: c2 :: c3 :: c4 :: c5 :: rest =>
    match b85Digit? c1, b85Digit? c2, b85Digit? c3, b85Digit? c4, b85Digit? c5 with
    | some d1, some d2, some d3, some d4, some d5 =>
      let N := b85Val [d1, d2, d3, d4, d5]
      if N < 4294967296 then
        match decode85 rest with
        | .ok bs => .ok (bytes4 N ++ bs)
        | .error e => .error e
      else .error .mk
    | _, _, _, _, _ => .error .mk

/-! ### Line wrapping

`Display for Bindle` hard-wraps the base85 text at 64 characters
(`while data.len() >= 64 { split_at(64) }` followed by an unconditional
`writeln!` of the remainder, which may be the empty line).  The fuel
argument (initially the string length) makes the recursion structural. -/

def wrap64Go : Nat → List Char → List (List Char)
  | 0, s => [s]
  | fuel + 1, s => if 64 ≤ s.length then s.take 64 :: wrap64Go fuel (s.drop 64) else [s]

def wrap64 (s : List Char) : List (List Char) := wrap64Go s.length s

/-- Model of `str::strip_prefix` on character lists. -/
def stripPre : List Char → List Char → Option (List Char)
  | [], s => some s
  | _ :: _, [] => none
  | p :: ps, c :: cs => if p = c then stripPre ps cs else none

/-! ### The `Bindle` container (src/bindle.rs)

`Bindle<C, K>` wraps a content value with its self-declared id and an
(optionally empty) list of signature certificates.  The `BindleContent`
trait is modelled as a structure bundling the associated constants and
methods the container relies on: the magic bytes, the armor plate title,
the strict (de)serialization of `C` (`StrictSerialize`/`StrictDeserialize`),
`bindle_id`, the `Display`/`FromStr` codec of the id type (the external
`baid58` encoding) and the optional extra headers / mnemonic. -/

/-- Model of `baid58::Baid58ParseError` (payload irrelevant to the claims). -/
inductive Baid58ParseError where
  | mk : Nat → Baid58ParseError
deriving DecidableEq

/-- Model of `strict_encoding::DeserializeError` (payload irrelevant). -/
inductive DeserializeError where
  | mk : Nat → DeserializeError
deriving DecidableEq

/-- Model of `strict_encoding::DecodeError` (payload irrelevant). -/
inductive DecodeError where
  | mk : Nat → DecodeError
deriving DecidableEq

structure BindleContent (C : Type) (Id : Type) where
  MAGIC : List Nat
  PLATE_TITLE : List Char
  serialize : C → List Nat
  deserialize : List Nat → Except DeserializeError C
  bindle_id : C → Id
  idDisplay : Id → List Char
  idFromStr : List Char → Except Baid58ParseError Id
  bindle_headers : C → List (List Char × List Char)
  bindle_mnemonic : C → Option (List Char)

structure Bindle (C : Type) (Id : Type) (Sig : Type) where
  id : Id
  data : C
  sigs : List Sig
deriving DecidableEq

/-- Model of `Bindle::new` (also `From<C> for Bindle`, which delegates to it). -/
def Bindle.new {C Id : Type} (Sig : Type) (B : BindleContent C Id) (data : C) :
    Bindle C Id Sig :=
  { id := B.bindle_id data, data := data, sigs := [] }

/-- Model of `Bindle::into_split`. -/
def Bindle.into_split {C Id Sig : Type} (b : Bindle C Id Sig) : C × List Sig :=
  (b.data, b.sigs)

/-- Model of `Bindle::unbindle`. -/
def Bindle.unbindle {C Id Sig : Type} (b : Bindle C Id Sig) : C := b.data

/-- Maximal byte size of a confined `U24` collection
(`amplify::confinement::U24` = 0xFFFFFF, "more than 16MB" in the error doc). -/
def U24 : Nat := 16777215

/-- The `"Id: "` header tag scanned by `FromStr for Bindle`. -/
def idTag : List Char := "Id: ".toList

def beginMarker (t : List Char) : List Char :=
  "-----BEGIN ".toList ++ t ++ "-----".toList

def endMarker (t : List Char) : List Char :=
  "-----END ".toList ++ t ++ "-----".toList

/-- Model of `Display for Bindle` (src/bindle.rs lines 174-203), one list
entry per emitted line.  The final `writeln!(f, "\n-----END {}-----", ..)`
contributes an empty line followed by the end marker. -/
def renderLines {C Id Sig : Type} (B : BindleContent C Id) (sigLine : Sig → List Char)
    (b : Bindle C Id Sig) : List (List Char) :=
  [beginMarker B.PLATE_TITLE]
    ++ [idTag ++ B.idDisplay b.id]
    ++ ((B.bindle_mnemonic b.data).elim [] fun m => ["Mnemonic: ".toList ++ m])
    ++ (B.bindle_headers b.data).map (fun kv => kv.1 ++ ": ".toList ++ kv.2)
    ++ b.sigs.map (fun s => "Signed-By: ".toList ++ sigLine s)
    ++ [[]]
    ++ wrap64 (encode85 (B.serialize b.data))
    ++ [[]]
    ++ [endMarker B.PLATE_TITLE]

inductive BindleParseError (Id : Type) where
  | WrongStructure
  | InvalidId (e : Baid58ParseError)
  | MismatchedId (actual expected : Id)
  | Base85
  | Deserialize (e : DeserializeError)
  | TooLarge
deriving DecidableEq

/-- First stage of `FromStr for Bindle`: `lines.next()` must be the BEGIN
marker and `lines.next_back()` the END marker, else `WrongStructure`; the
remaining lines in between are handed on. -/
def parseStructure (Id : Type) (t : List Char) :
    List (List Char) → Except (BindleParseError Id) (List (List Char))
  | [] => .error .WrongStructure
  | f :: rest =>
    match rest.getLast? with
    | none => .error .WrongStructure
    | some l =>
      if f = beginMarker t ∧ l = endMarker t then .ok rest.dropLast
      else .error .WrongStructure

/-- Header scan of `FromStr for Bindle`: lines are consumed up to the first
empty line; every line stripping the `"Id: "` prefix is parsed as the id
(a later occurrence overwrites an earlier one), a parse failure becoming
`InvalidId`.  Returns the parsed header id (if any) and the unconsumed
lines. -/
def scanHeaders {C Id : Type} (B : BindleContent C Id) :
    List (List Char) → Option Id →
    Except (BindleParseError Id) (Option Id × List (List Char))
  | [], acc => .ok (acc, [])
  | l :: ls, acc =>
    if l.isEmpty then .ok (acc, ls)
    else
      match stripPre idTag l with
      | some idStr =>
        match B.idFromStr idStr with
        | .ok i => scanHeaders B ls (some i)
        | .error e => .error (.InvalidId e)
      | none => scanHeaders B ls acc

/-- Payload stage of `FromStr for Bindle`: the non-empty remaining lines are
concatenated, base85-decoded, size-confined to `U24` (`Confined::try_from`,
failure `TooLarge`) and only then strict-deserialized. -/
def parsePayload {C Id : Type} (B : BindleContent C Id) (body : List (List Char)) :
    Except (BindleParseError Id) C :=
  let armor := (body.filter fun l => !l.isEmpty).flatten
  match decode85 armor with
  | .error _ => .error .Base85
  | .ok data =>
    if U24 < data.length then .error .TooLarge
    else
      match B.deserialize data with
      | .error e => .error (.Deserialize e)
      | .ok c => .ok c

/-- Model of `FromStr for Bindle` (src/bindle.rs lines 133-172) on the line
list of the input text.  After decoding, the content id is recomputed and
compared against the header id when one was present; signatures are not
reconstructed (`sigs: none!()`). -/
def fromLines {C Id : Type} (Sig : Type) [DecidableEq Id] (B : BindleContent C Id)
    (L : List (List Char)) : Except (BindleParseError Id) (Bindle C Id Sig) :=
  match parseStructure Id B.PLATE_TITLE L with
  | .error e => .error e
  | .ok middle =>
    match scanHeaders B middle none with
    | .error e => .error e
    | .ok (hid, body) =>
      match parsePayload B body with
      | .error e => .error e
      | .ok c =>
        let i := B.bindle_id c
        match hid with
        | some h =>
          if h ≠ i then .error (.MismatchedId i h)
          else .ok { id := i, data := c, sigs := [] }
        | none => .ok { id := i, data := c, sigs := [] }

inductive LoadError where
  | InvalidMagic
  | Decode (e : DecodeError)
deriving DecidableEq

/-- Model of `Bindle::load` (src/bindle.rs lines 218-228).  The binary body
decoder (`Bindle::strict_decode` over the rest of the file) is a parameter:
it is invoked only after the 4-byte magic comparison succeeds.  A file
shorter than 4 bytes fails `read_exact` with an io error, surfaced as
`Decode`. -/
def Bindle.load {C Id Sig : Type} (B : BindleContent C Id)
    (decodeBody : List Nat → Except DecodeError (Bindle C Id Sig))
    (bytes : List Nat) : Except LoadError (Bindle C Id Sig) :=
  if bytes.length < 4 then .error (.Decode (.mk 0))
  else if bytes.take 4 ≠ B.MAGIC then .error .InvalidMagic
  else (decodeBody (bytes.drop 4)).mapError .Decode

/-- The derived `StrictDecode for Bindle`: the three fields are decoded in
declaration order (`id`, `data`, `sigs`) from the byte stream, each by its
own codec, and reassembled verbatim — no cross-check between the stored id
and the decoded content is performed. -/
def decodeBindleBody {C Id Sig : Type}
    (decId : List Nat → Except DecodeError (Id × List Nat))
    (decC : List Nat → Except DecodeError (C × List Nat))
    (decSigs : List Nat → Except DecodeError (List Sig × List Nat))
    (bytes : List Nat) : Except DecodeError (Bindle C Id Sig) :=
  match decId bytes with
  | .error e => .error e
  | .ok (i, r1) =>
    match decC r1 with
    | .error e => .error e
    | .ok (c, r2) =>
      match decSigs r2 with
      | .error e => .error e
      | .ok (sgs, _) => .ok { id := i, data := c, sigs := sgs }

/-! ### Seal (src/seal.rs)

A `Seal` is a ledger-tagged `bpstd::Outpoint`.  The outpoint itself and its
string parser live in the external `bpstd` crate, so the outpoint is
modelled structurally (txid bytes + output index) and `Outpoint::from_str`
is a function parameter of `Seal::from_str`. -/

structure Outpoint where
  txid : List Nat
  vout : Nat
deriving DecidableEq

inductive OutpointParseError where
  | mk : Nat → OutpointParseError
deriving DecidableEq

inductive Seal where
  | Bitcoin (op : Outpoint)
  | Liquid (op : Outpoint)
deriving DecidableEq

/-- Model of `FromStr for Seal` (src/seal.rs lines 42-54). -/
def Seal.fromStr (po : List Char → Except OutpointParseError Outpoint)
    (s : List Char) : Except OutpointParseError Seal :=
  match stripPre ("bitcoin:".toList) s with
  | some rest => (po rest).map Seal.Bitcoin
  | none =>
    match stripPre ("liquid:".toList) s with
    | some rest => (po rest).map Seal.Liquid
    | none => (po s).map Seal.Bitcoin

/-- The `"<txid>:<vout>"` remainder handed to the outpoint parser: the text
after a recognised ledger prefix, or the whole string when neither ledger
prefix is present. -/
def ledgerRest (s : List Char) : List Char :=
  if s.take 8 = "bitcoin:".toList then s.drop 8
  else if s.take 7 = "liquid:".toList then s.drop 7
  else s

/-! ### Closure proofs (src/proofs.rs)

The transaction payloads are external `bpstd` types, kept as their
serialized bytes; the claims never inspect them. -/

structure BpProof where
  seal_tx : List Nat
  witness_tx : List Nat
  merkle_path : List (List Nat)
deriving DecidableEq

inductive Proof where
  | Bitcoin (p : BpProof)
  | Liquid (p : BpProof)
deriving DecidableEq

/-! ### Identity and certificate chain (src/identity.rs)

`Identity`, `Revocation` and `IdCert` are parameterised by the public-key
type `K` and the signature type `Sig` (the Rust code is generic over
`K: Pk` with `Sig = <K::Sk as Sk>::Sig`). -/

structure Identity (K : Type) where
  key : K
  «seal» : Seal
deriving DecidableEq

structure Revocation (K : Type) where
  new_identity : Identity K
  revocation_proof : Proof
deriving DecidableEq

structure IdCert (K : Type) (Sig : Type) where
  revocations : List (Revocation K)
  genesis_id : Identity K
  genesis_sig : Sig
deriving DecidableEq

/-- Model of `IdCert::new`: a genesis certificate with no revocations. -/
def IdCert.new {K Sig : Type} (identity : Identity K) (sig : Sig) : IdCert K Sig :=
  { revocations := [], genesis_id := identity, genesis_sig := sig }

/-- Model of `IdCert::identity`: the last revocation's `new_identity`, or the genesis
identity when the revocation list is empty (src/identity.rs lines 106-108). -/
def IdCert.identity {K Sig : Type} (c : IdCert K Sig) : Identity K :=
  (c.revocations.getLast?).elim c.genesis_id fun r => r.new_identity

/-- Model of `Identity::fingerprint`: it delegates to the key's `Pk::fingerprint`,
here a function parameter. -/
def Identity.fingerprint {K : Type} (fp : K → List Nat) (i : Identity K) :
    List Nat := fp i.key

/-- Model of `IdCert::fingerprint`: the fingerprint of the current identity's key. -/
def IdCert.fingerprint {K Sig : Type} (fp : K → List Nat) (c : IdCert K Sig) :
    List Nat := (IdCert.identity c).fingerprint fp

/-- Model of `BindleContent for IdCert`: `bindle_id` is the current identity's key
(src/identity.rs lines 113-119). -/
def IdCert.bindle_id {K Sig : Type} (c : IdCert K Sig) : K := (IdCert.identity c).key

/-- Modelled from the spec: the chain transition of §4.3 appends
`Revocation { new_identity, proof }` to the (append-only) revocation list.
No append API exists in src/ (the CLI `Revoke` command is a stub); the
`revocations` field is public and the spec's state machine extends it by
pushing one entry, which is what this operation does. -/
def IdCert.appendRevocation {K Sig : Type} (c : IdCert K Sig) (r : Revocation K) :
    IdCert K Sig :=
  { c with revocations := c.revocations ++ [r] }

/-! ### The ristretto key scheme (src/algo/ristretto25519.rs)

The ec25519 `PublicKey` is its 32 raw bytes. -/

structure RistrettoPk where
  key : List Nat
deriving DecidableEq

namespace RistrettoPk

/-- Value of `Pk::ID` for the ristretto scheme: algorithm tag byte 1. -/
def ID : Nat := 1

/-- Model of `RistrettoPk::fingerprint` (src/algo/ristretto25519.rs lines 131-133):
`Fingerprint::copy_from_slice(&self.0[0..4])` — the first four bytes of the
raw public key. -/
def fingerprint (pk : RistrettoPk) : List Nat := pk.key.take 4

/-- Model of `ToBaid58::to_baid58_payload` (lines 100-110): the 33-byte canonical
payload, the algorithm tag byte followed by the 32 raw key bytes. -/
def to_baid58_payload (pk : RistrettoPk) : List Nat := ID :: pk.key

end RistrettoPk

/-- Outcome of a Rust computation that may panic: `panicked` models an
`assert!`/`expect` failure, disjoint from any returned value. -/
inductive PanicOr (α : Type) where
  | panicked (msg : List Char)
  | ok (a : α)
deriving DecidableEq

/-- Model of `From<[u8; 33]> for RistrettoPk` (lines 91-98):
`assert_eq!(value[0], Self::ID, "invalid key type")` panics when the
leading tag byte is not 1; otherwise the remaining 32 bytes become the key.
(The input is a 33-byte array, so the empty case is unreachable.) -/
def RistrettoPk.fromBytes33 (v : List Nat) : PanicOr RistrettoPk :=
  match v with
  | t :: rest =>
    if t = RistrettoPk.ID then .ok ⟨rest⟩
    else .panicked ("invalid key type".toList)
  | [] => .panicked ("index out of bounds".toList)

/-- Model of `FromStr for RistrettoPk` (lines 112-115):
`from_baid58_chunked_str` (external `baid58` crate, a parameter here)
produces the 33-byte payload, which is then converted through
`From<[u8; 33]>` — inheriting its panic. -/
def RistrettoPk.fromStr (dec : List Char → Except Baid58ParseError (List Nat))
    (s : List Char) : PanicOr (Except Baid58ParseError RistrettoPk) :=
  match dec s with
  | .error e => .ok (.error e)
  | .ok payload =>
    match RistrettoPk.fromBytes33 payload with
    | .panicked m => .panicked m
    | .ok pk => .ok (.ok pk)

/-- A content value valid for its `BindleContent` implementation: the
contracts the Rust trait system supplies for every well-behaved instance.
`ser_bytes`: the strict serialization yields bytes; `ser_size`: it fits the
`U24` confinement (otherwise `Display`'s `to_strict_serialized` `expect`s);
`deser_ser`: `StrictDeserialize` inverts `StrictSerialize`; `id_codec`:
`C::Id`'s `FromStr` inverts its `Display` (the `baid58` canonical string
contract, §6 of the spec); `headers_safe`: no extra header line collides
with the `"Id: "` header tag. -/
structure ValidContent {C Id : Type} (B : BindleContent C Id) (c : C) : Prop where
  ser_bytes : ∀ b ∈ B.serialize c, b < 256
  ser_size : (B.serialize c).length ≤ U24
  deser_ser : B.deserialize (B.serialize c) = .ok c
  id_codec : B.idFromStr (B.idDisplay (B.bindle_id c)) = .ok (B.bindle_id c)
  headers_safe : ∀ kv ∈ B.bindle_headers c,
    stripPre idTag (kv.1 ++ ": ".toList ++ kv.2) = none

/-! ### Concrete instances

A minimal concrete `BindleContent` instance (content = its own byte list,
id = the content length, id rendered in unary) used to evaluate the generic
container operations on explicit inputs, and a handful of concrete keys,
seals and certificates.  They play the role the repository's own instances
(`RistrettoSk`, `IdCert`) play at runtime. -/

def natLenContent : BindleContent (List Nat) Nat where
  MAGIC := [0, 1, 2, 3]
  PLATE_TITLE := "TOY".toList
  serialize := fun c => c
  deserialize := fun bs => .ok bs
  bindle_id := fun c => c.length
  idDisplay := fun n => List.replicate n 'x'
  idFromStr := fun s => .ok s.length
  bindle_headers := fun _ => []
  bindle_mnemonic := fun _ => none

/-- A field-by-field binary codec for `natLenContent` bindles: the id is the
first byte, the content the remaining bytes, the signature list empty. -/
def natDecId (bs : List Nat) : Except DecodeError (Nat × List Nat) :=
  match bs with
  | b :: rest => .ok (b, rest)
  | [] => .error (.mk 1)

def natDecC (bs : List Nat) : Except DecodeError (List Nat × List Nat) :=
  .ok (bs, [])

def natDecSigs (bs : List Nat) : Except DecodeError (List Unit × List Nat) :=
  .ok ([], bs)

/-- A 16 MiB (2^24-byte) payload: one byte beyond the `U24` confinement. -/
def bigData : List Nat := List.replicate 16777216 0

def bigArmor : List Char := encode85 bigData

/-- An armored input whose payload decodes to `bigData`. -/
def bigL : List (List Char) :=
  [beginMarker ("TOY".toList), [], bigArmor, endMarker ("TOY".toList)]

/-- An armored input whose `Id:` header (value of length 1) disagrees with
the id recomputed from the payload `[5, 6]` (length 2). -/
def mismatchL : List (List Char) :=
  [beginMarker ("TOY".toList), "Id: x".toList, [], encode85 [5, 6],
   endMarker ("TOY".toList)]

/-- An armored input with no headers whose payload decodes to `[5]`. -/
def plainL : List (List Char) :=
  [beginMarker ("TOY".toList), [], encode85 [5], endMarker ("TOY".toList)]

/-- The `StrictDumb` ristretto key of the source: 32 bytes of 0xFA. -/
def dumbPk : RistrettoPk := ⟨List.replicate 32 250⟩

/-- A second key differing from `dumbPk` in its first byte. -/
def otherPk : RistrettoPk := ⟨0 :: List.replicate 31 250⟩

def sealA : Seal := .Bitcoin ⟨List.replicate 32 0, 0⟩

def sealB : Seal := .Bitcoin ⟨List.replicate 32 0, 1⟩

def identityA : Identity RistrettoPk := ⟨dumbPk, sealA⟩

/-- An identity over the same key as `identityA` but a fresh seal. -/
def identityB : Identity RistrettoPk := ⟨dumbPk, sealB⟩

def identityC : Identity RistrettoPk := ⟨otherPk, sealB⟩

def proofA : Proof := .Bitcoin ⟨[], [], []⟩

def certA : IdCert RistrettoPk (List Nat) := IdCert.new identityA (List.replicate 64 250)

/-- A baid58 decoder (for `RistrettoPk.fromStr`) that accepts one fixed
well-tagged 33-byte payload. -/
def decOk33 : List Char → Except Baid58ParseError (List Nat) :=
  fun _ => .ok (1 :: List.replicate 32 0)

/-- Variant of `natLenContent` with a structural decoder that accepts anything —
used to show a parse outcome that cannot depend on the decoder. -/
def looseContent : BindleContent (List Nat) Nat :=
  { natLenContent with deserialize := fun _ => .ok [] }

/-! ## Helper lemmas -/

theorem b85_digit_char : ∀ d < 85, b85Digit? (b85Char d) = some d := by decide

theorem b85_digit_lt (N k : Nat) : N / k % 85 < 85 := Nat.mod_lt _ (by norm_num)

theorem be4_lt {a b c d : Nat} (ha : a < 256) (hb : b < 256) (hc : c < 256)
    (hd : d < 256) : be4 a b c d < 4294967296 := by
  unfold be4; omega

theorem stripPre_append : ∀ p s : List Char, stripPre p (p ++ s) = some s := by
  intro p
  induction p with
  | nil => intro s; rfl
  | cons c cs ih => intro s; simp [stripPre, ih]

theorem wrap64Go_flatten : ∀ fuel s, (wrap64Go fuel s).flatten = s := by
  intro fuel
  induction fuel with
  | zero => intro s; simp [wrap64Go]
  | succ n ih =>
    intro s
    simp only [wrap64Go]
    split
    · simp [ih]
    · simp

theorem wrap64_flatten (s : List Char) : (wrap64 s).flatten = s :=
  wrap64Go_flatten _ _

theorem flatten_filter_nonempty :
    ∀ L : List (List Char), (L.filter fun l => !l.isEmpty).flatten = L.flatten := by
  intro L
  induction L with
  | nil => rfl
  | cons l ls ih => cases l <;> simp [List.filter, ih]

/-- Extraction of the leading byte of `M / K` when `q * K ≤ M < (q+1) * K`. -/
theorem byte_extract {M K q : Nat} (hq : q < 256) (hlo : q * K ≤ M)
    (hhi : M < (q + 1) * K) : M / K % 256 = q := by
  rw [Nat.div_eq_of_lt_le hlo hhi, Nat.mod_eq_of_lt hq]

theorem byte_extract2 {M K : Nat} (q : Nat) {b : Nat} (hb : b < 256)
    (hlo : (q * 256 + b) * K ≤ M) (hhi : M < (q * 256 + b + 1) * K) :
    M / K % 256 = b := by
  rw [Nat.div_eq_of_lt_le hlo hhi]
  omega

/-- The five base-85 digit extractions of `N < 2^32`, in subtraction form. -/
theorem digitsplit (N : Nat) (h : N < 4294967296) :
    N / 52200625 % 85 = N / 52200625 ∧
    N / 614125 % 85 = N / 614125 - 85 * (N / 52200625) ∧
    N / 7225 % 85 = N / 7225 - 85 * (N / 614125) ∧
    N / 85 % 85 = N / 85 - 85 * (N / 7225) ∧
    N % 85 = N - 85 * (N / 85) := by
  have h4 : N / 614125 / 85 = N / 52200625 := by
    rw [Nat.div_div_eq_div_mul]
  have h3 : N / 7225 / 85 = N / 614125 := by
    rw [Nat.div_div_eq_div_mul]
  have h2 : N / 85 / 85 = N / 7225 := by
    rw [Nat.div_div_eq_div_mul]
  refine ⟨?_, ?_, ?_, ?_, ?_⟩ <;> omega

theorem dec_enc_one {a : Nat} (ha : a < 256) :
    decode85 (encode85 [a]) = .ok [a] := by
  have hN : be4 a 0 0 0 = a * 16777216 := by simp [be4]
  obtain ⟨g4, g3, g2, g1, g0⟩ :=
    digitsplit (be4 a 0 0 0) (be4_lt ha (by norm_num) (by norm_num) (by norm_num))
  simp only [encode85, enc5, List.take, List.map, decode85]
  rw [b85_digit_char _ (b85_digit_lt _ _), b85_digit_char _ (b85_digit_lt _ _)]
  simp only [b85Val, List.foldl, bytes4, List.take]
  rw [g4, g3]
  rw [if_pos (by omega)]
  simp only [Except.ok.injEq, List.cons.injEq, and_true]
  exact byte_extract ha (by omega) (by omega)

theorem dec_enc_two {a b : Nat} (ha : a < 256) (hb : b < 256) :
    decode85 (encode85 [a, b]) = .ok [a, b] := by
  have hN : be4 a b 0 0 = a * 16777216 + b * 65536 := by simp [be4]
  obtain ⟨g4, g3, g2, g1, g0⟩ :=
    digitsplit (be4 a b 0 0) (be4_lt ha hb (by norm_num) (by norm_num))
  simp only [encode85, enc5, List.take, List.map, decode85]
  rw [b85_digit_char _ (b85_digit_lt _ _), b85_digit_char _ (b85_digit_lt _ _),
    b85_digit_char _ (b85_digit_lt _ _)]
  simp only [b85Val, List.foldl, bytes4, List.take]
  rw [g4, g3, g2]
  rw [if_pos (by omega)]
  simp only [Except.ok.injEq, List.cons.injEq, and_true]
  exact ⟨byte_extract ha (by omega) (by omega),
    byte_extract2 a hb (by omega) (by omega)⟩

theorem dec_enc_three {a b c : Nat} (ha : a < 256) (hb : b < 256) (hc : c < 256) :
    decode85 (encode85 [a, b, c]) = .ok [a, b, c] := by
  have hN : be4 a b c 0 = a * 16777216 + b * 65536 + c * 256 := by simp [be4]
  obtain ⟨g4, g3, g2, g1, g0⟩ :=
    digitsplit (be4 a b c 0) (be4_lt ha hb hc (by norm_num))
  simp only [encode85, enc5, List.take, List.map, decode85]
  rw [b85_digit_char _ (b85_digit_lt _ _), b85_digit_char _ (b85_digit_lt _ _),
    b85_digit_char _ (b85_digit_lt _ _), b85_digit_char _ (b85_digit_lt _ _)]
  simp only [b85Val, List.foldl, bytes4, List.take]
  rw [g4, g3, g2, g1]
  rw [if_pos (by omega)]
  simp only [Except.ok.injEq, List.cons.injEq, and_true]
  exact ⟨byte_extract ha (by omega) (by omega),
    byte_extract2 a hb (by omega) (by omega),
    byte_extract2 (a * 256 + b) hc (by omega) (by omega)⟩

theorem dec_enc_chunk {a b c d : Nat} {rest : List Nat}
    (ha : a < 256) (hb : b < 256) (hc : c < 256) (hd : d < 256)
    (hrec : decode85 (encode85 rest) = .ok rest) :
    decode85 (encode85 (a :: b :: c :: d :: rest)) = .ok (a :: b :: c :: d :: rest) := by
  have hN : be4 a b c d = a * 16777216 + b * 65536 + c * 256 + d := rfl
  obtain ⟨g4, g3, g2, g1, g0⟩ := digitsplit (be4 a b c d) (be4_lt ha hb hc hd)
  simp only [encode85, enc5, List.map, List.cons_append, List.nil_append,
    List.append_eq, decode85]
  rw [b85_digit_char _ (b85_digit_lt _ _), b85_digit_char _ (b85_digit_lt _ _),
    b85_digit_char _ (b85_digit_lt _ _), b85_digit_char _ (b85_digit_lt _ _),
    b85_digit_char _ (Nat.mod_lt _ (by norm_num))]
  simp only [b85Val, List.foldl]
  rw [g4, g3, g2, g1, g0]
  rw [if_pos (by omega)]
  rw [hrec]
  simp only [bytes4, List.cons_append, List.nil_append, Except.ok.injEq,
    List.cons.injEq]
  exact ⟨byte_extract ha (by omega) (by omega),
    byte_extract2 a hb (by omega) (by omega),
    byte_extract2 (a * 256 + b) hc (by omega) (by omega), by omega, trivial⟩

/-- Round trip: `base85::decode` inverts `base85::encode` on any byte string. -/
theorem decode85_encode85 (bs : List Nat) (h : ∀ b ∈ bs, b < 256) :
    decode85 (encode85 bs) = .ok bs := by
  have main : ∀ n bs, List.length bs ≤ n → (∀ b ∈ bs, b < 256) →
      decode85 (encode85 bs) = .ok bs := by
    intro n
    induction n with
    | zero =>
      intro bs hlen _
      have : bs = [] := List.length_eq_zero.mp (Nat.le_zero.mp hlen)
      subst this; rfl
    | succ n ih =>
      intro bs hlen hb
      match bs with
      | [] => rfl
      | [a] => exact dec_enc_one (hb a (by simp))
      | [a, b] => exact dec_enc_two (hb a (by simp)) (hb b (by simp))
      | [a, b, c] =>
        exact dec_enc_three (hb a (by simp)) (hb b (by simp)) (hb c (by simp))
      | a :: b :: c :: d :: rest =>
        have hrest : decode85 (encode85 rest) = .ok rest := by
          refine ih rest ?_ fun x hx => hb x (by simp [hx])
          have := hlen
          simp only [List.length_cons] at this
          omega
        exact dec_enc_chunk (hb a (by simp)) (hb b (by simp)) (hb c (by simp))
          (hb d (by simp)) hrest
  exact main bs.length bs le_rfl h

theorem parseStructure_ok {Id : Type} (t : List Char) (m : List (List Char)) :
    parseStructure Id t (beginMarker t :: (m ++ [endMarker t])) = .ok m := by
  simp [parseStructure, List.getLast?_concat, List.dropLast_concat]

theorem scanHeaders_blank {C Id : Type} (B : BindleContent C Id)
    (ls : List (List Char)) (acc : Option Id) :
    scanHeaders B ([] :: ls) acc = .ok (acc, ls) := by
  simp [scanHeaders]

theorem scanHeaders_skip {C Id : Type} (B : BindleContent C Id) {l : List Char}
    (ls : List (List Char)) (acc : Option Id) (hne : l ≠ [])
    (hid : stripPre idTag l = none) :
    scanHeaders B (l :: ls) acc = scanHeaders B ls acc := by
  cases l with
  | nil => exact absurd rfl hne
  | cons x xs => simp [scanHeaders, hid]

theorem scanHeaders_skip_block {C Id : Type} (B : BindleContent C Id) :
    ∀ (block rest : List (List Char)) (acc : Option Id),
      (∀ l ∈ block, l ≠ [] ∧ stripPre idTag l = none) →
      scanHeaders B (block ++ rest) acc = scanHeaders B rest acc := by
  intro block
  induction block with
  | nil => intro rest acc _; rfl
  | cons l bs ih =>
    intro rest acc h
    have hl := h l (by simp)
    rw [List.cons_append, scanHeaders_skip B _ _ hl.1 hl.2,
      ih rest acc fun l' hl' => h l' (by simp [hl'])]

theorem scanHeaders_idline {C Id : Type} (B : BindleContent C Id) (d : List Char)
    (i : Id) (hfs : B.idFromStr d = .ok i) (ls : List (List Char)) (acc : Option Id) :
    scanHeaders B ((idTag ++ d) :: ls) acc = scanHeaders B ls (some i) := by
  have hempty : (idTag ++ d).isEmpty = false := rfl
  simp only [scanHeaders, hempty, Bool.false_eq_true, if_false]
  rw [stripPre_append]
  dsimp only
  rw [hfs]

theorem stripPre_idTag_mnemonic (m : List Char) :
    stripPre idTag ("Mnemonic: ".toList ++ m) = none := by
  rw [show ("Mnemonic: ".toList) ++ m = 'M' :: ("nemonic: ".toList ++ m) from rfl,
    show idTag = 'I' :: "d: ".toList from rfl]
  simp only [stripPre]
  rw [if_neg (by decide)]

theorem mnemonicLine_ne_nil (m : List Char) : "Mnemonic: ".toList ++ m ≠ [] := by
  rw [show ("Mnemonic: ".toList) ++ m = 'M' :: ("nemonic: ".toList ++ m) from rfl]
  exact List.cons_ne_nil _ _

theorem headerLine_ne_nil (k v : List Char) : k ++ ": ".toList ++ v ≠ [] := by
  cases k with
  | nil =>
    rw [show ([] : List Char) ++ ": ".toList ++ v = ':' :: (" ".toList ++ v) from rfl]
    exact List.cons_ne_nil _ _
  | cons x xs =>
    rw [show (x :: xs) ++ ": ".toList ++ v = x :: (xs ++ ": ".toList ++ v) from rfl]
    exact List.cons_ne_nil _ _

/-- C1: rendering `Bindle::new(C)` to armored text via `Display` and parsing
it back via `FromStr` succeeds and yields a `Bindle` with id `C.bindle_id()`
and content `C` itself. -/
theorem c1_roundtrip {C Id Sig : Type} [DecidableEq Id] (B : BindleContent C Id)
    (sigLine : Sig → List Char) (c : C) (hv : ValidContent B c) :
    fromLines Sig B (renderLines B sigLine (Bindle.new Sig B c)) =
      .ok (Bindle.new Sig B c) := by
  have hrender : renderLines B sigLine (Bindle.new Sig B c) =
      beginMarker B.PLATE_TITLE ::
        (((idTag ++ B.idDisplay (B.bindle_id c)) ::
          ((((B.bindle_mnemonic c).elim [] fun m => ["Mnemonic: ".toList ++ m]) ++
            ((B.bindle_headers c).map fun kv => kv.1 ++ ": ".toList ++ kv.2)) ++
            ([] :: (wrap64 (encode85 (B.serialize c)) ++ [[]])))) ++
          [endMarker B.PLATE_TITLE]) := by
    simp [renderLines, Bindle.new, List.append_assoc]
  have hs : parseStructure Id B.PLATE_TITLE
      (renderLines B sigLine (Bindle.new Sig B c)) =
      .ok ((idTag ++ B.idDisplay (B.bindle_id c)) ::
        ((((B.bindle_mnemonic c).elim [] fun m => ["Mnemonic: ".toList ++ m]) ++
          ((B.bindle_headers c).map fun kv => kv.1 ++ ": ".toList ++ kv.2)) ++
          ([] :: (wrap64 (encode85 (B.serialize c)) ++ [[]])))) := by
    rw [hrender]; exact parseStructure_ok _ _
  have hblock : ∀ l ∈ (((B.bindle_mnemonic c).elim [] fun m => ["Mnemonic: ".toList ++ m]) ++
      ((B.bindle_headers c).map fun kv => kv.1 ++ ": ".toList ++ kv.2)),
      l ≠ [] ∧ stripPre idTag l = none := by
    intro l hml
    rcases List.mem_append.mp hml with hmn | hhd
    · cases hm : B.bindle_mnemonic c with
      | none => rw [hm] at hmn; simp at hmn
      | some m =>
        rw [hm] at hmn
        simp only [Option.elim, List.mem_singleton] at hmn
        subst hmn
        exact ⟨mnemonicLine_ne_nil m, stripPre_idTag_mnemonic m⟩
    · obtain ⟨kv, hkv, rfl⟩ := List.mem_map.mp hhd
      exact ⟨headerLine_ne_nil _ _, hv.headers_safe kv hkv⟩
  have hscan : scanHeaders B
      ((idTag ++ B.idDisplay (B.bindle_id c)) ::
        ((((B.bindle_mnemonic c).elim [] fun m => ["Mnemonic: ".toList ++ m]) ++
          ((B.bindle_headers c).map fun kv => kv.1 ++ ": ".toList ++ kv.2)) ++
          ([] :: (wrap64 (encode85 (B.serialize c)) ++ [[]])))) none =
      .ok (some (B.bindle_id c), wrap64 (encode85 (B.serialize c)) ++ [[]]) := by
    rw [scanHeaders_idline B _ _ hv.id_codec,
      scanHeaders_skip_block B _ _ _ hblock, scanHeaders_blank]
  have hpay : parsePayload B (wrap64 (encode85 (B.serialize c)) ++ [[]]) = .ok c := by
    simp only [parsePayload, flatten_filter_nonempty, List.flatten_append,
      List.flatten_cons, List.flatten_nil, List.append_nil, wrap64_flatten]
    rw [decode85_encode85 (B.serialize c) hv.ser_bytes]
    dsimp only
    rw [if_neg (by have := hv.ser_size; omega)]
    rw [hv.deser_ser]
  unfold fromLines
  rw [hs]
  dsimp only
  rw [hscan]
  dsimp only
  rw [hpay]
  dsimp only
  rw [if_neg fun h => h rfl]
  rfl

/-- C1 witness: the round trip evaluated on the concrete content `[1, 2, 3]`
of the `natLenContent` instance. -/
theorem c1_roundtrip_witness :
    ValidContent natLenContent [1, 2, 3] ∧
    fromLines Unit natLenContent
      (renderLines natLenContent (fun _ : Unit => [])
        (Bindle.new Unit natLenContent [1, 2, 3])) =
      .ok (Bindle.new Unit natLenContent [1, 2, 3]) := by
  have hv : ValidContent natLenContent [1, 2, 3] :=
    ⟨by decide, by decide, rfl, rfl, by intro kv hkv; simp [natLenContent] at hkv⟩
  exact ⟨hv, c1_roundtrip natLenContent (fun _ : Unit => []) [1, 2, 3] hv⟩

/-- C2: when structure, headers, Base85, size confinement and structural
decode all succeed and an `Id:` header was present, parsing fails with
`MismatchedId { actual := recomputed id, expected := header id }` exactly
when the two ids differ, and succeeds when they agree. -/
theorem c2_id_mismatch {C Id Sig : Type} [DecidableEq Id] (B : BindleContent C Id)
    (L middle body : List (List Char)) (hdr : Id) (c : C)
    (h1 : parseStructure Id B.PLATE_TITLE L = .ok middle)
    (h2 : scanHeaders B middle none = .ok (some hdr, body))
    (h3 : parsePayload B body = .ok c) :
    (hdr ≠ B.bindle_id c →
      fromLines Sig B L = .error (.MismatchedId (B.bindle_id c) hdr)) ∧
    (hdr = B.bindle_id c →
      fromLines Sig B L = .ok { id := B.bindle_id c, data := c, sigs := [] }) := by
  constructor
  · intro hne
    unfold fromLines
    rw [h1]; dsimp only; rw [h2]; dsimp only; rw [h3]; dsimp only
    rw [if_pos hne]
  · intro heq
    subst heq
    unfold fromLines
    rw [h1]; dsimp only; rw [h2]; dsimp only; rw [h3]; dsimp only
    rw [if_neg fun hx => hx rfl]

/-- C2 witness: a concrete armored input whose header id (1) disagrees with
the id recomputed from the payload `[5, 6]` (2). -/
theorem c2_id_mismatch_witness :
    parseStructure Nat natLenContent.PLATE_TITLE mismatchL =
      .ok ["Id: x".toList, [], encode85 [5, 6]] ∧
    scanHeaders natLenContent ["Id: x".toList, [], encode85 [5, 6]] none =
      .ok (some 1, [encode85 [5, 6]]) ∧
    parsePayload natLenContent [encode85 [5, 6]] = .ok [5, 6] ∧
    fromLines Unit natLenContent mismatchL = .error (.MismatchedId 2 1) := by
  refine ⟨rfl, rfl, rfl, ?_⟩
  exact (c2_id_mismatch natLenContent mismatchL ["Id: x".toList, [], encode85 [5, 6]]
    [encode85 [5, 6]] 1 [5, 6] rfl rfl rfl).1 (by decide)

/-- C3: with at least 4 bytes present, a magic mismatch yields `InvalidMagic`
for every conceivable structural decoder (no decode is attempted), and the
decoder runs on the remaining bytes only once the magic matches. -/
theorem c3_magic_precedence {C Id Sig : Type} (B : BindleContent C Id)
    (bytes : List Nat) (hlen : 4 ≤ bytes.length) :
    (bytes.take 4 ≠ B.MAGIC →
      ∀ decodeBody : List Nat → Except DecodeError (Bindle C Id Sig),
        Bindle.load B decodeBody bytes = .error .InvalidMagic) ∧
    (bytes.take 4 = B.MAGIC →
      ∀ decodeBody : List Nat → Except DecodeError (Bindle C Id Sig),
        Bindle.load B decodeBody bytes =
          (decodeBody (bytes.drop 4)).mapError .Decode) := by
  constructor
  · intro hm decodeBody
    unfold Bindle.load
    rw [if_neg (by omega), if_pos hm]
  · intro hm decodeBody
    unfold Bindle.load
    rw [if_neg (by omega), if_neg fun hx => hx hm]

/-- C3 witness: corrupted leading bytes `[9, 9, 9, 9]` against the magic
`[0, 1, 2, 3]` of `natLenContent`. -/
theorem c3_magic_precedence_witness :
    4 ≤ ([9, 9, 9, 9] : List Nat).length ∧
    ([9, 9, 9, 9] : List Nat).take 4 ≠ natLenContent.MAGIC ∧
    Bindle.load natLenContent (decodeBindleBody natDecId natDecC natDecSigs)
      [9, 9, 9, 9] = .error .InvalidMagic := by
  refine ⟨by decide, by decide, ?_⟩
  exact (c3_magic_precedence natLenContent [9, 9, 9, 9] (by decide)).1 (by decide) _

/-- C4 counterexample: `Bindle::load` decodes the stored fields verbatim, so
a crafted binary input produces a `Bindle` whose `id` (5) differs from
`data.bindle_id()` (1), refuting the claim for the `load` path. -/
theorem c4_counterexample :
    Bindle.load natLenContent (decodeBindleBody natDecId natDecC natDecSigs)
      [0, 1, 2, 3, 5, 9] = .ok { id := 5, data := [9], sigs := [] } ∧
    (5 : Nat) ≠ natLenContent.bindle_id [9] :=
  ⟨rfl, by decide⟩

/-- C4 (amended): `Bindle::new` (and `From<C>`) and armored-text parsing do
establish `id = data.bindle_id()` (with an empty signature list on parse),
and the accessor operations return the stored components unchanged; binary
`load` is excluded, as it performs no such cross-check. -/
theorem c4_invariant_amended {C Id Sig : Type} [DecidableEq Id]
    (B : BindleContent C Id) (c : C) (L : List (List Char)) (b : Bindle C Id Sig) :
    (Bindle.new Sig B c).id = B.bindle_id c ∧
    (Bindle.new Sig B c).sigs = [] ∧
    (fromLines Sig B L = .ok b → b.id = B.bindle_id b.data ∧ b.sigs = []) ∧
    Bindle.into_split b = (b.data, b.sigs) ∧
    Bindle.unbindle b = b.data := by
  refine ⟨rfl, rfl, ?_, rfl, rfl⟩
  intro hp
  unfold fromLines at hp
  cases hps : parseStructure Id B.PLATE_TITLE L with
  | error e => rw [hps] at hp; exact absurd hp (by simp)
  | ok middle =>
    rw [hps] at hp; dsimp only at hp
    cases hsc : scanHeaders B middle none with
    | error e => rw [hsc] at hp; exact absurd hp (by simp)
    | ok pr =>
      obtain ⟨hid, body⟩ := pr
      rw [hsc] at hp; dsimp only at hp
      cases hpp : parsePayload B body with
      | error e => rw [hpp] at hp; exact absurd hp (by simp)
      | ok c' =>
        rw [hpp] at hp; dsimp only at hp
        cases hid with
        | none =>
          injection hp with hb
          subst hb
          exact ⟨rfl, rfl⟩
        | some hd =>
          dsimp only at hp
          by_cases hne : hd ≠ B.bindle_id c'
          · rw [if_pos hne] at hp; exact absurd hp (by simp)
          · rw [if_neg hne] at hp
            injection hp with hb
            subst hb
            exact ⟨rfl, rfl⟩

/-- C4 witness: a concrete successful armored parse satisfying the
invariant. -/
theorem c4_invariant_witness :
    fromLines Unit natLenContent plainL =
      .ok { id := 1, data := [5], sigs := ([] : List Unit) } ∧
    (({ id := 1, data := [5], sigs := [] } : Bindle (List Nat) Nat Unit).id =
      natLenContent.bindle_id [5] ∧
      ({ id := 1, data := [5], sigs := [] } : Bindle (List Nat) Nat Unit).sigs = []) := by
  have hp : fromLines Unit natLenContent plainL =
      .ok { id := 1, data := [5], sigs := ([] : List Unit) } := rfl
  exact ⟨hp, (c4_invariant_amended natLenContent [5] plainL _).2.2.1 hp⟩

/-- C5: `identity()` is the last revocation's `new_identity` (genesis when
none); folding `N` appended revocations over a genesis certificate leaves
exactly that revocation list (every earlier identity retrievable), keeps the
genesis entry, and makes `identity()` the last appended identity. -/
theorem c5_chain_monotonic {K Sig : Type} (gid : Identity K) (gsig : Sig)
    (rs : List (Revocation K)) :
    (rs.foldl IdCert.appendRevocation (IdCert.new gid gsig)).revocations = rs ∧
    (rs.foldl IdCert.appendRevocation (IdCert.new gid gsig)).genesis_id = gid ∧
    IdCert.identity (rs.foldl IdCert.appendRevocation (IdCert.new gid gsig)) =
      (rs.getLast?).elim gid (fun r => r.new_identity) ∧
    ∀ c : IdCert K Sig, IdCert.identity c =
      (c.revocations.getLast?).elim c.genesis_id fun r => r.new_identity := by
  have hfold : ∀ (l : List (Revocation K)) (c0 : IdCert K Sig),
      l.foldl IdCert.appendRevocation c0 =
        { revocations := c0.revocations ++ l, genesis_id := c0.genesis_id,
          genesis_sig := c0.genesis_sig } := by
    intro l
    induction l with
    | nil => intro c0; simp
    | cons r l ih =>
      intro c0
      rw [List.foldl_cons, ih]
      simp [IdCert.appendRevocation]
  rw [hfold]
  refine ⟨by simp [IdCert.new], rfl, ?_, fun c => rfl⟩
  simp [IdCert.identity, IdCert.new]

/-- C6 counterexample: on the source's `StrictDumb` key (32 bytes of 0xFA),
`fingerprint()` takes the first four bytes of the *raw* key, not of the
tag-prefixed canonical payload: the latter would begin with the tag byte 1. -/
theorem c6_counterexample :
    RistrettoPk.fingerprint dumbPk ≠ (RistrettoPk.to_baid58_payload dumbPk).take 4 := by
  decide

/-- C6 (amended): `fingerprint()` is the first 4 bytes of the raw 32-byte
public key — bytes 1..5 of the tag-prefixed canonical payload — and
`IdCert::fingerprint` always reflects the current (latest) identity's key:
the last appended revocation's key, or the genesis key on a fresh
certificate. -/
theorem c6_fingerprint {Sig : Type} (pk : RistrettoPk) (c : IdCert RistrettoPk Sig)
    (r : Revocation RistrettoPk) (gid : Identity RistrettoPk) (gsig : Sig) :
    RistrettoPk.fingerprint pk = ((RistrettoPk.to_baid58_payload pk).drop 1).take 4 ∧
    IdCert.fingerprint RistrettoPk.fingerprint c =
      RistrettoPk.fingerprint (IdCert.identity c).key ∧
    IdCert.fingerprint RistrettoPk.fingerprint (IdCert.appendRevocation c r) =
      RistrettoPk.fingerprint r.new_identity.key ∧
    IdCert.fingerprint RistrettoPk.fingerprint (IdCert.new gid gsig) =
      RistrettoPk.fingerprint gid.key := by
  refine ⟨?_, rfl, ?_, rfl⟩
  · simp [RistrettoPk.fingerprint, RistrettoPk.to_baid58_payload]
  · simp [IdCert.fingerprint, Identity.fingerprint, IdCert.identity,
      IdCert.appendRevocation, List.getLast?_concat]

theorem stripPre_eq (p : List Char) : ∀ s : List Char,
    stripPre p s = if s.take p.length = p then some (s.drop p.length) else none := by
  induction p with
  | nil => intro s; simp [stripPre]
  | cons c cs ih =>
    intro s
    cases s with
    | nil => simp [stripPre]
    | cons x xs =>
      simp only [stripPre, List.length_cons, List.take_succ_cons, List.drop_succ_cons, ih]
      rcases eq_or_ne c x with hc | hc
      · subst hc
        rcases eq_or_ne (xs.take cs.length) cs with ht | ht
        · simp [ht]
        · simp [ht]
      · have hcons : ¬(x :: xs.take cs.length = c :: cs) := by
          intro h
          exact hc (List.head_eq_of_cons_eq h).symm
        simp [hc, hcons]

theorem exceptMap_error {α β γ : Type} (x : Except γ α) (f : α → β) (e : γ) :
    x.map f = .error e ↔ x = .error e := by
  cases x <;> simp [Except.map]

/-- C7: `Seal::from_str` returns `Bitcoin` of the parsed outpoint for a
`bitcoin:` prefix or when no ledger prefix is present (the default ledger),
`Liquid` for a `liquid:` prefix, and propagates an outpoint parse error
exactly when the remaining `<txid>:<vout>` part fails to parse. -/
theorem c7_seal_fromStr (po : List Char → Except OutpointParseError Outpoint)
    (s : List Char) :
    Seal.fromStr po s =
      (if s.take 8 = "bitcoin:".toList then (po (s.drop 8)).map Seal.Bitcoin
       else if s.take 7 = "liquid:".toList then (po (s.drop 7)).map Seal.Liquid
       else (po s).map Seal.Bitcoin) ∧
    (∀ e : OutpointParseError,
      Seal.fromStr po s = .error e ↔ po (ledgerRest s) = .error e) := by
  have hmain : Seal.fromStr po s =
      (if s.take 8 = "bitcoin:".toList then (po (s.drop 8)).map Seal.Bitcoin
       else if s.take 7 = "liquid:".toList then (po (s.drop 7)).map Seal.Liquid
       else (po s).map Seal.Bitcoin) := by
    unfold Seal.fromStr
    rw [stripPre_eq, stripPre_eq,
      show ("bitcoin:".toList).length = 8 from rfl,
      show ("liquid:".toList).length = 7 from rfl]
    by_cases hb : s.take 8 = "bitcoin:".toList
    · rw [if_pos hb, if_pos hb]
    · rw [if_neg hb, if_neg hb]
      dsimp only
      by_cases hl : s.take 7 = "liquid:".toList
      · rw [if_pos hl, if_pos hl]
      · rw [if_neg hl, if_neg hl]
  refine ⟨hmain, fun e => ?_⟩
  rw [hmain]
  unfold ledgerRest
  by_cases hb : s.take 8 = "bitcoin:".toList
  · rw [if_pos hb, if_pos hb]
    exact exceptMap_error _ _ _
  · rw [if_neg hb, if_neg hb]
    by_cases hl : s.take 7 = "liquid:".toList
    · rw [if_pos hl, if_pos hl]
      exact exceptMap_error _ _ _
    · rw [if_neg hl, if_neg hl]
      exact exceptMap_error _ _ _

/-- C8 counterexample: a 33-byte payload whose leading tag byte is 2 makes
`From<[u8; 33]> for RistrettoPk` panic (`assert_eq!(value[0], Self::ID)`)
instead of returning an error value. -/
theorem c8_counterexample :
    (2 :: List.replicate 32 0).length = 33 ∧
    RistrettoPk.fromBytes33 (2 :: List.replicate 32 0) =
      .panicked ("invalid key type".toList) :=
  ⟨by decide, rfl⟩

/-- C8 (amended): `RistrettoPk::from_str` surfaces every baid58 parse
failure as an error value; a successfully parsed payload is converted via
`From<[u8; 33]>`, which panics precisely when the leading tag byte is not 1
and otherwise yields the key of the remaining 32 bytes. -/
theorem c8_decode_behavior (dec : List Char → Except Baid58ParseError (List Nat))
    (s : List Char) (t : Nat) (rest : List Nat) :
    (∀ e, dec s = .error e → RistrettoPk.fromStr dec s = .ok (.error e)) ∧
    (dec s = .ok (t :: rest) → t ≠ RistrettoPk.ID →
      RistrettoPk.fromStr dec s = .panicked ("invalid key type".toList)) ∧
    (dec s = .ok (t :: rest) → t = RistrettoPk.ID →
      RistrettoPk.fromStr dec s = .ok (.ok ⟨rest⟩)) := by
  refine ⟨?_, ?_, ?_⟩
  · intro e he
    unfold RistrettoPk.fromStr
    rw [he]
  · intro hok hne
    unfold RistrettoPk.fromStr
    rw [hok]
    dsimp only
    rw [show RistrettoPk.fromBytes33 (t :: rest) =
      if t = RistrettoPk.ID then .ok ⟨rest⟩
      else .panicked ("invalid key type".toList) from rfl]
    rw [if_neg hne]
  · intro hok heq
    unfold RistrettoPk.fromStr
    rw [hok]
    dsimp only
    rw [show RistrettoPk.fromBytes33 (t :: rest) =
      if t = RistrettoPk.ID then .ok ⟨rest⟩
      else .panicked ("invalid key type".toList) from rfl]
    rw [if_pos heq]

/-- C8 witness: a baid58 decoder returning a well-tagged payload, on which
`from_str` succeeds without panicking. -/
theorem c8_decode_witness :
    decOk33 [] = .ok (1 :: List.replicate 32 0) ∧ (1 : Nat) = RistrettoPk.ID ∧
    RistrettoPk.fromStr decOk33 [] = .ok (.ok ⟨List.replicate 32 0⟩) :=
  ⟨rfl, rfl, (c8_decode_behavior decOk33 [] 1 (List.replicate 32 0)).2.2 rfl rfl⟩

theorem scanHeaders_congr {C C' Id : Type} (B : BindleContent C Id)
    (B' : BindleContent C' Id) (hfs : B.idFromStr = B'.idFromStr) :
    ∀ (ls : List (List Char)) (acc : Option Id),
      scanHeaders B ls acc = scanHeaders B' ls acc := by
  intro ls
  induction ls with
  | nil => intro acc; rfl
  | cons l ls ih =>
    intro acc
    cases l with
    | nil => rfl
    | cons x xs =>
      simp only [scanHeaders]
      rw [hfs]
      cases stripPre idTag (x :: xs) with
      | none => exact ih acc
      | some idStr =>
        dsimp only
        cases B'.idFromStr idStr with
        | error e => rfl
        | ok i => exact ih (some i)

/-- C9: once the armored structure and headers are accepted, the payload is
the concatenation of the remaining non-empty lines; if its Base85 decoding
exceeds the `U24` (16 MiB) confinement, parsing fails with `TooLarge` for
*every* structural decoder — the content codec is never consulted. -/
theorem c9_toolarge {C C' Id Sig : Type} [DecidableEq Id]
    (B : BindleContent C Id) (B' : BindleContent C' Id)
    (L middle body : List (List Char)) (hid : Option Id) (data : List Nat)
    (hT : B'.PLATE_TITLE = B.PLATE_TITLE)
    (hF : B.idFromStr = B'.idFromStr)
    (h1 : parseStructure Id B.PLATE_TITLE L = .ok middle)
    (h2 : scanHeaders B middle none = .ok (hid, body))
    (h3 : decode85 ((body.filter fun l => !l.isEmpty).flatten) = .ok data)
    (h4 : U24 < data.length) :
    fromLines Sig B' L = .error .TooLarge := by
  unfold fromLines
  rw [hT, h1]
  dsimp only
  rw [← scanHeaders_congr B B' hF middle none, h2]
  dsimp only
  have hpp : parsePayload B' body = .error .TooLarge := by
    simp only [parsePayload]
    rw [h3]
    dsimp only
    rw [if_pos h4]
  rw [hpp]

/-- C9 witness: a 2^24-byte payload (one byte past the confinement bound)
behind a structurally valid armor; parsing stops at `TooLarge` even with a
decoder that accepts everything. -/
theorem c9_toolarge_witness :
    decode85 (([bigArmor].filter fun l => !l.isEmpty).flatten) = .ok bigData ∧
    U24 < bigData.length ∧
    fromLines Unit looseContent bigL = .error .TooLarge := by
  have h3 : decode85 (([bigArmor].filter fun l => !l.isEmpty).flatten) = .ok bigData := by
    rw [flatten_filter_nonempty,
      show ([bigArmor] : List (List Char)).flatten = bigArmor by simp]
    exact decode85_encode85 bigData
      (by intro b hb; have := List.eq_of_mem_replicate hb; omega)
  have h4 : U24 < bigData.length := by
    have hlen : bigData.length = 16777216 := by
      unfold bigData
      exact List.length_replicate _ _
    have hU : U24 = 16777215 := rfl
    omega
  exact ⟨h3, h4,
    c9_toolarge natLenContent looseContent bigL [[], bigArmor] [bigArmor] none
      bigData rfl rfl rfl rfl h3 h4⟩

/-- C10 counterexample: appending a genuine revocation (to a fresh seal)
whose new identity reuses the current key leaves the certificate's bindle id
unchanged. -/
theorem c10_counterexample :
    identityB ≠ identityA ∧
    IdCert.bindle_id (IdCert.appendRevocation certA ⟨identityB, proofA⟩) =
      IdCert.bindle_id certA :=
  ⟨by decide, rfl⟩

/-- C10 (amended): an `IdCert`'s bindle id is the current identity's public
key — the last revocation's key, or the genesis key when there are none —
so appending a revocation whose new identity carries a *different* key
changes the bindle id. -/
theorem c10_bindle_id {K Sig : Type} (c : IdCert K Sig) (r : Revocation K) :
    IdCert.bindle_id c = (IdCert.identity c).key ∧
    IdCert.bindle_id (IdCert.appendRevocation c r) = r.new_identity.key ∧
    (r.new_identity.key ≠ (IdCert.identity c).key →
      IdCert.bindle_id (IdCert.appendRevocation c r) ≠ IdCert.bindle_id c) := by
  have happ : IdCert.bindle_id (IdCert.appendRevocation c r) = r.new_identity.key := by
    simp [IdCert.bindle_id, IdCert.identity, IdCert.appendRevocation,
      List.getLast?_concat]
  refine ⟨rfl, happ, fun hne heq => hne ?_⟩
  calc r.new_identity.key
      = IdCert.bindle_id (IdCert.appendRevocation c r) := happ.symm
    _ = IdCert.bindle_id c := heq
    _ = (IdCert.identity c).key := rfl

/-- C10 witness: appending a revocation to a different key does change the
bindle id. -/
theorem c10_bindle_id_witness :
    otherPk ≠ dumbPk ∧
    IdCert.bindle_id (IdCert.appendRevocation certA ⟨identityC, proofA⟩) ≠
      IdCert.bindle_id certA := by
  have hne : (Revocation.mk identityC proofA).new_identity.key ≠
      (IdCert.identity certA).key := by decide
  exact ⟨by decide, (c10_bindle_id certA ⟨identityC, proofA⟩).2.2 hne⟩

end SSID
